import Mathlib

/-!
Verification of the Seega backend's domain rules and game-service
orchestration, shallowly embedded from the Python sources
(`app/domain/models.py`, `rules_phase1.py`, `rules_phase2.py`,
`rules_capture.py`, `rules_victory.py`, `app/services/game_service.py`).

Python's in-place mutation is modelled by explicit state passing: every
function that mutates a `GameState` returns the updated state.  Machine
integers do not arise (Python ints are unbounded); coordinates are `Int`
and cell values are `Nat` (0 = empty, 1 = player 1, 2 = player 2).
-/

namespace Seega

/-- Game phase (`Phase` in `models.py`). -/
inductive Phase where
  | placement
  | movement
deriving DecidableEq, Repr

/-- Session status (`GameStatus` in `models.py`). -/
inductive GameStatus where
  | waiting
  | ready
  | playing
  | finished
deriving DecidableEq, Repr

/-- A 5x5 board (`Board` in `models.py`); `cells` is indexed row first, so
the Python access `cells[y][x]` reads the `x`-th entry of the `y`-th row. -/
structure Board where
  cells : List (List Nat)
deriving DecidableEq, Repr

/-- The initial, all-empty 5x5 board (`Board()` default factory). -/
def Board.init : Board :=
  ⟨[[0,0,0,0,0],[0,0,0,0,0],[0,0,0,0,0],[0,0,0,0,0],[0,0,0,0,0]]⟩

/-- Read a cell (`Board.get`): `cells[y][x]`.  In the embedded code every
call is guarded by `is_valid_position`, so only indices `0 ≤ x, y < 5`
matter; out-of-range reads default to `0`. -/
def Board.get (b : Board) (x y : Int) : Nat :=
  (b.cells.getD y.toNat []).getD x.toNat 0

/-- Write a cell (`Board.set`): `cells[y][x] = value`. -/
def Board.set (b : Board) (x y : Int) (v : Nat) : Board :=
  ⟨b.cells.set y.toNat ((b.cells.getD y.toNat []).set x.toNat v)⟩

/-- Bounds test (`Board.is_valid_position`). -/
def Board.is_valid_position (b : Board) (x y : Int) : Bool :=
  decide (0 ≤ x ∧ x < 5 ∧ 0 ≤ y ∧ y < 5)

/-- Emptiness test (`Board.is_empty`). -/
def Board.is_empty (b : Board) (x y : Int) : Bool :=
  b.get x y == 0

/-- Refuge test (`Board.is_refuge`): the centre cell (2, 2). -/
def Board.is_refuge (b : Board) (x y : Int) : Bool :=
  x == 2 && y == 2

/-- Well-formedness of a board: exactly the shapes Python ever builds
(5 rows of 5 cells).  `Board.init` satisfies it and `Board.set`
preserves it. -/
def Board.WF (b : Board) : Prop :=
  b.cells.length = 5 ∧ ∀ row ∈ b.cells, row.length = 5

instance (b : Board) : Decidable b.WF := by
  unfold Board.WF; infer_instance

/-- A seated player (`PlayerSession` in `models.py`). -/
structure PlayerSession where
  player_number : Nat
  token : String
  connected : Bool
deriving DecidableEq, Repr

/-- Full session state (`GameState` in `models.py`).  The Python dict
`pieces_count = {1: c1, 2: c2}` is split into the two fields
`pieces_count1`, `pieces_count2` (the code only ever uses keys 1 and 2);
the dynamically added `rematch_requests` set is an always-present list
(empty before the first rematch request, duplicates never inserted). -/
structure GameState where
  game_id : String
  board : Board
  phase : Phase
  status : GameStatus
  current_player : Nat
  player1 : Option PlayerSession
  player2 : Option PlayerSession
  pieces_count1 : Int
  pieces_count2 : Int
  placement_remaining : Int
  chain_capture_piece : Option (Int × Int)
  winner : Option Nat
  game_over : Bool
  total_pieces_placed : Nat
  rematch_requests : List Nat
deriving DecidableEq, Repr

/-- Piece count of a player (`state.pieces_count[p]` for `p ∈ {1,2}`). -/
def GameState.pieces_count (st : GameState) (p : Nat) : Int :=
  if p = 1 then st.pieces_count1 else st.pieces_count2

/-- Opponent ordinal (`GameState.get_opponent`). -/
def GameState.get_opponent (p : Nat) : Nat :=
  if p = 1 then 2 else 1

/-- Turn switch (`GameState.switch_turn`): flips `current_player`, and in
the placement phase resets the per-turn budget to 2. -/
def GameState.switch_turn (st : GameState) : GameState :=
  let st := { st with current_player := GameState.get_opponent st.current_player }
  if st.phase = Phase.placement then { st with placement_remaining := 2 } else st

/-- Result of one action (`MoveResult` in `models.py`). -/
structure MoveResult where
  success : Bool
  captures : List (Int × Int)
  extra_turn : Bool
  phase_changed : Bool
  game_over : Bool
  winner : Option Nat
  message : String
deriving DecidableEq, Repr

/-- Fresh `MoveResult` with the dataclass defaults. -/
def MoveResult.mk0 : MoveResult :=
  ⟨true, [], false, false, false, none, ""⟩

/-! ## Capture rules (`rules_capture.py`) -/

/-- Direction scan order used by `check_captures`: right, left, down, up. -/
def captureDirs : List (Int × Int) := [(1, 0), (-1, 0), (0, 1), (0, -1)]

/-- Loop body of `check_captures` for one direction `d`: the chain of
`continue` guards from the source, appending the flanked enemy cell when
every guard passes. -/
def captureStep (b : Board) (x y : Int) (opponent player : Nat)
    (captured : List (Int × Int)) (d : Int × Int) : List (Int × Int) :=
  let enemy_x := x + d.1
  let enemy_y := y + d.2
  let support_x := x + 2 * d.1
  let support_y := y + 2 * d.2
  if !(b.is_valid_position enemy_x enemy_y) then captured
  else if !(b.is_valid_position support_x support_y) then captured
  else if b.get enemy_x enemy_y ≠ opponent then captured
  else if b.is_refuge enemy_x enemy_y then captured
  else if b.get support_x support_y = player then captured ++ [(enemy_x, enemy_y)]
  else captured

/-- Custody-capture detection (`check_captures`): a piece just landed on
(x, y); each orthogonal direction is scanned in order, appending the
adjacent enemy cell when it is flanked by an own piece and is not the
refuge. -/
def check_captures (st : GameState) (x y : Int) (player : Nat) : List (Int × Int) :=
  let opponent := if player = 1 then 2 else 1
  captureDirs.foldl (captureStep st.board x y opponent player) []

/-- Capture application (`apply_captures`): clears each captured cell and
decrements the count of the piece's owner (the cell value, which at every
call site is the opponent's ordinal). -/
def apply_captures (st : GameState) (captures : List (Int × Int)) : GameState :=
  captures.foldl
    (fun st c =>
      let owner := st.board.get c.1 c.2
      let st := { st with board := st.board.set c.1 c.2 0 }
      if owner = 1 then { st with pieces_count1 := st.pieces_count1 - 1 }
      else if owner = 2 then { st with pieces_count2 := st.pieces_count2 - 1 }
      else st)
    st

/-- Neighbour scan order used by `has_capture_chain` and the movement
rules: down, up, right, left. -/
def moveDirs : List (Int × Int) := [(0, 1), (0, -1), (1, 0), (-1, 0)]

/-- Loop body of `has_capture_chain`: for each candidate destination the
board is mutated (vacate (x, y), occupy the destination), captures are
recomputed, the mutation is reverted, and the scan stops at the first
destination that yields a capture.  The board is threaded explicitly
because Python mutates it in place. -/
def hasChainLoop (x y : Int) (player : Nat) (st : GameState) :
    List (Int × Int) → GameState × Bool
  | [] => (st, false)
  | m :: rest =>
      let st1 := { st with board := (st.board.set x y 0).set m.1 m.2 player }
      let captures := check_captures st1 m.1 m.2 player
      let st2 := { st1 with board := (st1.board.set m.1 m.2 0).set x y player }
      if captures.length > 0 then (st2, true)
      else hasChainLoop x y player st2 rest

/-- Chain-capture lookahead (`has_capture_chain`): computes the empty
in-bounds orthogonal neighbours of (x, y), then speculatively relocates
the piece to each in turn, reverting the board every time. -/
def has_capture_chain (st : GameState) (x y : Int) (player : Nat) : GameState × Bool :=
  let possible_moves := moveDirs.filterMap
    (fun d =>
      let nx := x + d.1
      let ny := y + d.2
      if st.board.is_valid_position nx ny && st.board.is_empty nx ny
      then some (nx, ny) else none)
  hasChainLoop x y player st possible_moves

/-! ## Specification-side capture description (claim C2)

These definitions follow the spec's words, to be compared with
`check_captures` above. -/

/-- Condition, written from the spec's words, for a direction `d` to
yield a capture after `player` lands on (x, y): the adjacent cell is in
bounds, holds the opponent's piece (`3 - player`), is not the refuge
(2, 2), and the cell one step further is in bounds and holds the
player's own piece. -/
def SpecCaptureCond (b : Board) (x y : Int) (player : Nat) (d : Int × Int) : Prop :=
  (0 ≤ x + d.1 ∧ x + d.1 < 5 ∧ 0 ≤ y + d.2 ∧ y + d.2 < 5) ∧
  b.get (x + d.1) (y + d.2) = 3 - player ∧
  (x + d.1, y + d.2) ≠ ((2 : Int), (2 : Int)) ∧
  (0 ≤ x + 2 * d.1 ∧ x + 2 * d.1 < 5 ∧ 0 ≤ y + 2 * d.2 ∧ y + 2 * d.2 < 5) ∧
  b.get (x + 2 * d.1) (y + 2 * d.2) = player

instance (b : Board) (x y : Int) (player : Nat) (d : Int × Int) :
    Decidable (SpecCaptureCond b x y player d) := by
  unfold SpecCaptureCond; infer_instance

/-- Captured cells as the spec words them, in the spec's direction-scan
order +x, -x, +y, -y. -/
def specCaptureList (b : Board) (x y : Int) (player : Nat) : List (Int × Int) :=
  ([(1, 0), (-1, 0), (0, 1), (0, -1)] : List (Int × Int)).filterMap
    (fun d => if SpecCaptureCond b x y player d then some (x + d.1, y + d.2) else none)

/-! ## Phase-1 rules (`rules_phase1.py`) -/

/-- Placement legality (`can_place_piece`): returns eligibility and the
reason string of the first violated rule. -/
def can_place_piece (st : GameState) (x y : Int) (player : Nat) : Bool × String :=
  if st.phase ≠ Phase.placement then
    (false, "No estás en la fase de posicionamiento")
  else if st.current_player ≠ player then
    (false, "No es tu turno")
  else if st.placement_remaining ≤ 0 then
    (false, "Ya colocaste todas tus piezas este turno")
  else if !(st.board.is_valid_position x y) then
    (false, "Posición fuera del tablero")
  else if !(st.board.is_empty x y) then
    (false, "La celda ya está ocupada")
  else if st.board.is_refuge x y then
    (false, "No se puede colocar en el refugio central")
  else
    (true, "OK")

/-- Piece drop (`place_piece`): writes the piece, bumps the counters,
spends the budget, switches the turn when the budget reaches 0, and
transitions to the movement phase (clearing the chain pointer) when the
cumulative counter reaches 24; the returned flag is the phase change. -/
def place_piece (st : GameState) (x y : Int) (player : Nat) : GameState × Bool :=
  let st := { st with
    board := st.board.set x y player
    pieces_count1 := if player = 1 then st.pieces_count1 + 1 else st.pieces_count1
    pieces_count2 := if player = 2 then st.pieces_count2 + 1 else st.pieces_count2
    total_pieces_placed := st.total_pieces_placed + 1
    placement_remaining := st.placement_remaining - 1 }
  let st := if st.placement_remaining = 0 then st.switch_turn else st
  if st.total_pieces_placed ≥ 24 then
    ({ st with phase := Phase.movement, chain_capture_piece := none }, true)
  else
    (st, false)

/-- Valid placements (`get_valid_placements`): all empty non-refuge
cells, scanned row by row; empty outside the placement phase. -/
def get_valid_placements (st : GameState) : List (Int × Int) :=
  if st.phase ≠ Phase.placement then []
  else
    (List.range 5).flatMap (fun y =>
      (List.range 5).filterMap (fun x =>
        if st.board.is_empty x y && !(st.board.is_refuge x y)
        then some ((x : Int), (y : Int)) else none))

/-! ## Phase-2 rules (`rules_phase2.py`) -/

/-- Movement legality (`can_move_piece`): phase, turn, bounds, ownership,
empty destination, single orthogonal step, and — last — the chain-capture
constraint pinning the origin to the pending piece. -/
def can_move_piece (st : GameState) (from_x from_y to_x to_y : Int) (player : Nat) :
    Bool × String :=
  if st.phase ≠ Phase.movement then
    (false, "No estás en la fase de movimiento")
  else if st.current_player ≠ player then
    (false, "No es tu turno")
  else if !(st.board.is_valid_position from_x from_y) then
    (false, "Posición origen inválida")
  else if !(st.board.is_valid_position to_x to_y) then
    (false, "Posición destino inválida")
  else if st.board.get from_x from_y ≠ player then
    (false, "No es tu pieza")
  else if !(st.board.is_empty to_x to_y) then
    (false, "El destino no está vacío")
  else if ¬(((to_x - from_x).natAbs = 1 ∧ (to_y - from_y).natAbs = 0) ∨
            ((to_x - from_x).natAbs = 0 ∧ (to_y - from_y).natAbs = 1)) then
    (false, "Solo puedes mover 1 celda en dirección ortogonal")
  else
    match st.chain_capture_piece with
    | some c =>
        if from_x ≠ c.1 ∨ from_y ≠ c.2 then
          (false, "Debes continuar moviendo la pieza en (" ++ toString c.1 ++ ", " ++
            toString c.2 ++ ")")
        else (true, "OK")
    | none => (true, "OK")

/-- Unconditional relocation (`move_piece`): vacates the origin and drops
its former occupant on the destination; no legality check, no counter
update. -/
def move_piece (st : GameState) (from_x from_y to_x to_y : Int) : GameState :=
  let player := st.board.get from_x from_y
  { st with board := (st.board.set from_x from_y 0).set to_x to_y player }

/-- Per-piece destinations (`get_valid_moves_for_piece`): the empty
in-bounds orthogonal neighbours of an occupied cell; empty outside the
movement phase or for an empty cell. -/
def get_valid_moves_for_piece (st : GameState) (x y : Int) : List (Int × Int) :=
  if st.phase ≠ Phase.movement then []
  else if st.board.get x y = 0 then []
  else
    moveDirs.filterMap (fun d =>
      let nx := x + d.1
      let ny := y + d.2
      if st.board.is_valid_position nx ny && st.board.is_empty nx ny
      then some (nx, ny) else none)

/-- All valid moves (`get_all_valid_moves`), as an association list in
the Python dict's insertion order: with a chain pointer set, only that
piece's destinations (empty when it has none); otherwise every occupied
origin of the player with at least one destination, scanned row by
row. -/
def get_all_valid_moves (st : GameState) (player : Nat) :
    List ((Int × Int) × List (Int × Int)) :=
  if st.phase ≠ Phase.movement then []
  else
    match st.chain_capture_piece with
    | some c =>
        let moves := get_valid_moves_for_piece st c.1 c.2
        if moves ≠ [] then [((c.1, c.2), moves)] else []
    | none =>
        (List.range 5).flatMap (fun y =>
          (List.range 5).filterMap (fun x =>
            if st.board.get x y = player then
              let moves := get_valid_moves_for_piece st x y
              if moves ≠ [] then some (((x : Int), (y : Int)), moves) else none
            else none))

/-! ## Victory rules (`rules_victory.py`) -/

/-- Victory check (`check_victory`): only in the movement phase; first
attrition (a count below 2 loses), then stalemate (the current player
with no valid moves loses to the side with more pieces; on a tie the
non-blocked player wins). -/
def check_victory (st : GameState) : Bool × Option Nat × String :=
  if st.phase ≠ Phase.movement then (false, none, "")
  else
    let p1_pieces := st.pieces_count1
    let p2_pieces := st.pieces_count2
    if p1_pieces < 2 then (true, some 2, "Jugador 1 tiene menos de 2 piezas")
    else if p2_pieces < 2 then (true, some 1, "Jugador 2 tiene menos de 2 piezas")
    else
      let current_moves := get_all_valid_moves st st.current_player
      if current_moves.length = 0 then
        if p1_pieces > p2_pieces then
          (true, some 1, "Jugador 2 bloqueado, Jugador 1 tiene más piezas")
        else if p2_pieces > p1_pieces then
          (true, some 2, "Jugador 1 bloqueado, Jugador 2 tiene más piezas")
        else
          let winner := if st.current_player = 1 then 2 else 1
          (true, some winner,
            "Jugador " ++ toString st.current_player ++ " bloqueado, empate en piezas")
      else (false, none, "")

/-! ## Game service (`game_service.py`)

Notification fan-out and repository persistence are I/O-only (the
in-memory repository aliases the very objects being mutated), so the
embedded service operations are the state transitions and returned
payloads; `HTTPException` is `Except.error` carrying the detail string.
Randomness (`random.choice([1, 2])`) and fresh token generation are
passed in as parameters. -/

/-- Token resolution (`_get_player_number` / `_get_and_validate_game`):
slot 1 is checked first, then slot 2; no match is a 403. -/
def resolve_player (st : GameState) (tok : String) : Option Nat :=
  if st.player1.any (fun p => p.token == tok) then some 1
  else if st.player2.any (fun p => p.token == tok) then some 2
  else none

/-- Core of `GameService.place_piece` after token resolution: legality
check (400 on failure, nothing mutated), piece drop, then — when the
phase did not change — the victory check, marking the session finished
when it fires. -/
def service_place_core (st : GameState) (player_num : Nat) (x y : Int) :
    GameState × Except String MoveResult :=
  let check := can_place_piece st x y player_num
  if !check.1 then (st, .error check.2)
  else
    let pr := place_piece st x y player_num
    let st := pr.1
    let result := { MoveResult.mk0 with
      phase_changed := pr.2, message := "Pieza colocada exitosamente" }
    if !result.phase_changed then
      let v := check_victory st
      if v.1 then
        ({ st with winner := v.2.1, game_over := true, status := GameStatus.finished },
         .ok { result with game_over := true, winner := v.2.1, message := v.2.2 })
      else (st, .ok result)
    else (st, .ok result)

/-- `GameService.place_piece` from the token: 403 when the token matches
no seat, then the core. -/
def service_place (st : GameState) (tok : String) (x y : Int) :
    GameState × Except String MoveResult :=
  match resolve_player st tok with
  | none => (st, .error "Token inválido")
  | some p => service_place_core st p x y

/-- Capture-and-turn section of `GameService.move_piece` (lines 272-290):
with at least one capture, apply them and run the chain lookahead —
either pin the chain pointer to the destination for an extra turn
(boolean `true`) or clear it and switch the turn; with no capture, clear
the pointer and switch the turn. -/
def capture_turn_step (st : GameState) (player_num : Nat) (tx ty : Int)
    (captures : List (Int × Int)) : GameState × Bool :=
  if captures.length > 0 then
    let stC := apply_captures st captures
    let hc := has_capture_chain stC tx ty player_num
    if hc.2 then ({ hc.1 with chain_capture_piece := some (tx, ty) }, true)
    else (GameState.switch_turn { hc.1 with chain_capture_piece := none }, false)
  else (GameState.switch_turn { st with chain_capture_piece := none }, false)

/-- Victory section shared by both checks in `GameService.move_piece`:
when `check_victory` fires, copy the winner into the result and the
state and mark the session finished. -/
def finish_if_winner (st : GameState) (result : MoveResult) : GameState × MoveResult :=
  let v := check_victory st
  if v.1 then
    ({ st with winner := v.2.1, game_over := true, status := GameStatus.finished },
     { result with game_over := true, winner := v.2.1, message := v.2.2 })
  else (st, result)

/-- Core of `GameService.move_piece` after token resolution: legality
check (400 on failure, nothing mutated), relocation, capture detection,
the capture/turn section, then the victory check — run once, and, on the
no-winner no-extra-turn path, run a second (identical) time as in the
source. -/
def service_move_core (st : GameState) (player_num : Nat) (fx fy tx ty : Int) :
    GameState × Except String MoveResult :=
  let check := can_move_piece st fx fy tx ty player_num
  if !check.1 then (st, .error check.2)
  else
    let st := move_piece st fx fy tx ty
    let captures := check_captures st tx ty player_num
    let step := capture_turn_step st player_num tx ty captures
    let result := { MoveResult.mk0 with captures := captures, extra_turn := step.2 }
    let step2 := finish_if_winner step.1 result
    if step2.2.game_over then (step2.1, .ok step2.2)
    else if !step2.2.extra_turn then
      let step3 := finish_if_winner step2.1 step2.2
      (step3.1, .ok step3.2)
    else (step2.1, .ok step2.2)

/-- `GameService.move_piece` from the token. -/
def service_move (st : GameState) (tok : String) (fx fy tx ty : Int) :
    GameState × Except String MoveResult :=
  match resolve_player st tok with
  | none => (st, .error "Token inválido")
  | some p => service_move_core st p fx fy tx ty

/-- Payload returned by `join_game` / `reconnect_game`. -/
structure JoinResponse where
  gameId : String
  playerToken : String
  playerNumber : Nat
  status : GameStatus
deriving DecidableEq, Repr

/-- `GameService.join_game`: a supplied token matching a seat is an
idempotent reconnection; otherwise, outside WAITING, a token-less call
recovers slot 2's token when that seat exists, else the call fails; in
WAITING a fresh slot-2 seat is created with the supplied `new_token`,
status flips to PLAYING and the starting turn is the random `coin`. -/
def service_join (st : GameState) (existing_token : Option String)
    (new_token : String) (coin : Nat) : GameState × Except String JoinResponse :=
  let reconnect : Option JoinResponse :=
    match existing_token with
    | none => none
    | some tok =>
        if st.player1.any (fun p => p.token == tok) then
          some ⟨st.game_id, tok, 1, st.status⟩
        else if st.player2.any (fun p => p.token == tok) then
          some ⟨st.game_id, tok, 2, st.status⟩
        else none
  match reconnect with
  | some r => (st, .ok r)
  | none =>
      if st.status ≠ GameStatus.waiting then
        match st.player2, existing_token with
        | some p2, none => (st, .ok ⟨st.game_id, p2.token, 2, st.status⟩)
        | _, _ => (st, .error "La partida ya está llena o terminada")
      else
        let st := { st with
          player2 := some ⟨2, new_token, true⟩
          status := GameStatus.playing
          current_player := coin }
        (st, .ok ⟨st.game_id, new_token, 2, GameStatus.playing⟩)

/-- Tail of `leave_game` after the leaving slot is cleared: with both
seats empty the session is deleted (`none`), otherwise it is marked
finished with the remaining player as winner; the boolean mirrors
`gameDeleted`. -/
def leaveFinish (st : GameState) : Option GameState × Except String Bool :=
  if st.player1 = none ∧ st.player2 = none then (none, .ok true)
  else
    let st := { st with status := GameStatus.finished, game_over := true }
    let st :=
      if st.player1.isSome then { st with winner := some 1 }
      else if st.player2.isSome then { st with winner := some 2 }
      else st
    (some st, .ok false)

/-- `GameService.leave_game`: clears the caller's seat (403 when the
token matches neither), then `leaveFinish`. -/
def service_leave (st : GameState) (tok : String) : Option GameState × Except String Bool :=
  if st.player1.any (fun p => p.token == tok) then
    leaveFinish { st with player1 := none }
  else if st.player2.any (fun p => p.token == tok) then
    leaveFinish { st with player2 := none }
  else (some st, .error "Token inválido")

/-- `GameService.rematch_game`: requires a finished game, records the
caller's ordinal in the request set, and when both ordinals are present
resets the whole session to its initial configuration with a fresh
random starting turn (`coin`); the boolean mirrors `rematchStarted`. -/
def service_rematch (st : GameState) (tok : String) (coin : Nat) :
    GameState × Except String Bool :=
  if !st.game_over then (st, .error "El juego aún no ha terminado")
  else
    match resolve_player st tok with
    | none => (st, .error "Token inválido")
    | some p =>
        let reqs :=
          if p ∈ st.rematch_requests then st.rematch_requests
          else st.rematch_requests ++ [p]
        let st := { st with rematch_requests := reqs }
        if reqs.length ≥ 2 then
          ({ st with
              board := Board.init
              phase := Phase.placement
              status := GameStatus.playing
              current_player := coin
              pieces_count1 := 0
              pieces_count2 := 0
              placement_remaining := 2
              winner := none
              game_over := false
              chain_capture_piece := none
              total_pieces_placed := 0
              rematch_requests := [] }, .ok true)
        else (st, .ok false)

/-! ## Concrete sessions used as test vectors -/

/-- A playing movement-phase session between tokens "t1" and "t2"; the
board and counts are overridden per test vector. -/
def baseState : GameState :=
  { game_id := "G"
    board := Board.init
    phase := Phase.movement
    status := GameStatus.playing
    current_player := 1
    player1 := some ⟨1, "t1", true⟩
    player2 := some ⟨2, "t2", true⟩
    pieces_count1 := 0
    pieces_count2 := 0
    placement_remaining := 2
    chain_capture_piece := none
    winner := none
    game_over := false
    total_pieces_placed := 24
    rematch_requests := [] }

/-- Movement-phase session where the current player (1) holds three
pieces at (0,0), (1,0), (0,1) but is pinned by a chain pointer on (0,0),
whose neighbours are occupied; player 2 holds (2,0) and (0,2).  The
current player is blocked yet holds more pieces. -/
def exC1 : GameState :=
  { baseState with
    board := ⟨[[1,1,2,0,0],[1,0,0,0,0],[2,0,0,0,0],[0,0,0,0,0],[0,0,0,0,0]]⟩
    pieces_count1 := 3
    pieces_count2 := 2
    chain_capture_piece := some (0, 0) }

/-- Board where player 1's piece sits at (1,1), an enemy at (1,2) and a
supporting own piece at (1,3): the canonical custody capture. -/
def exCap : GameState :=
  { baseState with
    board := ⟨[[0,0,0,0,0],[0,1,0,0,0],[0,2,0,0,0],[0,1,0,0,0],[0,0,0,0,0]]⟩
    pieces_count1 := 2
    pieces_count2 := 1 }

/-- Movement-phase session for the chain-capture lookahead: player 1's
piece at (1,1) with empty neighbour (1,2); moving there would capture
the enemy at (1,3) supported by (1,4), so the scan early-returns true. -/
def exC9 : GameState :=
  { baseState with
    board := ⟨[[0,0,0,0,0],[0,1,0,0,0],[0,0,0,0,0],[0,2,0,0,0],[0,1,0,0,0]]⟩
    pieces_count1 := 2
    pieces_count2 := 1 }

/-- Movement-phase session with player 1 reduced to a single piece. -/
def exC4 : GameState :=
  { baseState with
    board := ⟨[[1,0,0,0,0],[0,0,0,0,0],[0,0,0,0,0],[0,0,2,0,0],[0,2,2,0,0]]⟩
    pieces_count1 := 1
    pieces_count2 := 3 }

/-- A WAITING session: only slot 1 ("t1") is seated, placement phase,
nothing placed yet. -/
def exWait : GameState :=
  { baseState with
    status := GameStatus.waiting
    phase := Phase.placement
    player2 := none
    total_pieces_placed := 0 }

/-- Movement-phase session for the chain-capture scenario: player 1 moves
(0,0) to (1,0), capturing (2,0) (support (3,0)); afterwards moving on to
(1,1) would capture (2,1) (support (3,1)), so a chain is pending. -/
def exC3 : GameState :=
  { baseState with
    board := ⟨[[1,0,2,1,0],[0,0,2,1,0],[0,0,0,0,0],[0,0,0,0,0],[0,0,0,0,2]]⟩
    pieces_count1 := 3
    pieces_count2 := 3 }

/-- A finished movement-phase session with a pending rematch request
from player 1; the next rematch call completes the handshake. -/
def exC5 : GameState :=
  { baseState with
    status := GameStatus.finished
    game_over := true
    winner := some 1
    pieces_count1 := 2
    pieces_count2 := 1
    rematch_requests := [1] }

/-- A placement-phase session one drop away from the 24-piece
transition. -/
def exC5b : GameState :=
  { baseState with
    phase := Phase.placement
    total_pieces_placed := 23
    placement_remaining := 1 }

/-- Inductive session invariant strengthening the chain-pointer property
of the spec's data-model section: a well-formed board; no chain pointer
during placement; a set chain pointer references an in-bounds cell
holding the current player's piece; and a WAITING session has no second
player, is in placement with at most 2 drops done, and its budget
bookkeeping matches (the reachable WAITING states are exactly
(current=1, rem=2, total=0), (1, 1, 1) and (2, 2, 2)). -/
def Inv (st : GameState) : Prop :=
  st.board.WF ∧
  (st.phase = Phase.placement → st.chain_capture_piece = none) ∧
  (∀ c : Int × Int, st.chain_capture_piece = some c →
    (0 ≤ c.1 ∧ c.1 < 5 ∧ 0 ≤ c.2 ∧ c.2 < 5) ∧
    st.board.get c.1 c.2 = st.current_player) ∧
  (st.status = GameStatus.waiting →
    st.player2 = none ∧ st.phase = Phase.placement ∧ st.total_pieces_placed ≤ 2 ∧
    (st.current_player = 1 →
      (st.total_pieces_placed : Int) = 2 - st.placement_remaining ∧
      1 ≤ st.placement_remaining))

/-! ## Theorems -/

theorem is_valid_position_eq_true (b : Board) (x y : Int) :
    b.is_valid_position x y = true ↔ (0 ≤ x ∧ x < 5 ∧ 0 ≤ y ∧ y < 5) := by
  simp [Board.is_valid_position]

theorem is_refuge_eq_true (b : Board) (x y : Int) :
    b.is_refuge x y = true ↔ (x = 2 ∧ y = 2) := by
  simp [Board.is_refuge]

/-- One direction of the capture scan agrees with the spec-side
condition: the guard chain appends exactly when `SpecCaptureCond`
holds. -/
theorem captureStep_eq_spec (b : Board) (x y : Int) (player : Nat) (d : Int × Int)
    (acc : List (Int × Int)) (hp : player = 1 ∨ player = 2) :
    captureStep b x y (if player = 1 then 2 else 1) player acc d
    = acc ++ (if SpecCaptureCond b x y player d then [(x + d.1, y + d.2)] else []) := by
  have hopp : ((if player = 1 then 2 else 1 : Nat)) = 3 - player := by
    rcases hp with rfl | rfl <;> norm_num
  unfold captureStep
  rw [hopp]
  by_cases h1 : (0 ≤ x + d.1 ∧ x + d.1 < 5 ∧ 0 ≤ y + d.2 ∧ y + d.2 < 5)
  · have hb1 : b.is_valid_position (x + d.1) (y + d.2) = true :=
      (is_valid_position_eq_true b _ _).mpr h1
    by_cases h4 : (0 ≤ x + 2 * d.1 ∧ x + 2 * d.1 < 5 ∧ 0 ≤ y + 2 * d.2 ∧ y + 2 * d.2 < 5)
    · have hb4 : b.is_valid_position (x + 2 * d.1) (y + 2 * d.2) = true :=
        (is_valid_position_eq_true b _ _).mpr h4
      by_cases h2 : b.get (x + d.1) (y + d.2) = 3 - player
      · by_cases h3 : ((x + d.1, y + d.2) : Int × Int) = (2, 2)
        · have hbr : b.is_refuge (x + d.1) (y + d.2) = true := by
            rw [is_refuge_eq_true]
            exact ⟨congrArg Prod.fst h3, congrArg Prod.snd h3⟩
          have hns : ¬ SpecCaptureCond b x y player d := fun hs => hs.2.2.1 h3
          simp [hb1, hb4, h2, hbr, hns]
        · have hbr : b.is_refuge (x + d.1) (y + d.2) = false := by
            rw [Bool.eq_false_iff, ne_eq, is_refuge_eq_true]
            intro hc
            exact h3 (Prod.ext hc.1 hc.2)
          by_cases h5 : b.get (x + 2 * d.1) (y + 2 * d.2) = player
          · have hs : SpecCaptureCond b x y player d := ⟨h1, h2, h3, h4, h5⟩
            simp [hb1, hb4, h2, hbr, h5, hs]
          · have hns : ¬ SpecCaptureCond b x y player d := fun hs => h5 hs.2.2.2.2
            simp [hb1, hb4, h2, hbr, h5, hns]
      · have hns : ¬ SpecCaptureCond b x y player d := fun hs => h2 hs.2.1
        simp [hb1, hb4, h2, hns]
    · have hb4 : b.is_valid_position (x + 2 * d.1) (y + 2 * d.2) = false := by
        rw [Bool.eq_false_iff, ne_eq, is_valid_position_eq_true]
        exact h4
      have hns : ¬ SpecCaptureCond b x y player d := fun hs => h4 hs.2.2.2.1
      simp [hb1, hb4, hns]
  · have hb1 : b.is_valid_position (x + d.1) (y + d.2) = false := by
      rw [Bool.eq_false_iff, ne_eq, is_valid_position_eq_true]
      exact h1
    have hns : ¬ SpecCaptureCond b x y player d := fun hs => h1 hs.1
    simp [hb1, hns]

/-- Folding the capture scan over any direction list produces the
spec-side filter, in scan order. -/
theorem foldl_captureStep (b : Board) (x y : Int) (player : Nat)
    (hp : player = 1 ∨ player = 2) :
    ∀ (ds : List (Int × Int)) (acc : List (Int × Int)),
      ds.foldl (captureStep b x y (if player = 1 then 2 else 1) player) acc
      = acc ++ ds.filterMap
          (fun d => if SpecCaptureCond b x y player d then some (x + d.1, y + d.2) else none)
  | [], acc => by simp
  | d :: rest, acc => by
      rw [List.foldl_cons, foldl_captureStep b x y player hp rest _,
        captureStep_eq_spec b x y player d acc hp, List.filterMap_cons]
      by_cases hs : SpecCaptureCond b x y player d
      · simp [hs]
      · simp [hs]

/-- Claim C2: `check_captures` returns exactly the cells that, in some
orthogonal direction from the landing square, hold an opponent piece
flanked by an own piece, are in bounds together with their support
square, and are not the refuge (2,2); the list follows the scan order
+x, -x, +y, -y, has at most 4 entries, and never contains the refuge. -/
theorem check_captures_matches_spec (st : GameState) (x y : Int) (player : Nat)
    (hp : player = 1 ∨ player = 2) :
    check_captures st x y player = specCaptureList st.board x y player ∧
    (∀ c : Int × Int, c ∈ check_captures st x y player ↔
      ∃ d ∈ ([(1, 0), (-1, 0), (0, 1), (0, -1)] : List (Int × Int)),
        c = (x + d.1, y + d.2) ∧ SpecCaptureCond st.board x y player d) ∧
    (check_captures st x y player).length ≤ 4 ∧
    ((2 : Int), (2 : Int)) ∉ check_captures st x y player := by
  have heq : check_captures st x y player = specCaptureList st.board x y player := by
    unfold check_captures specCaptureList captureDirs
    rw [foldl_captureStep st.board x y player hp]
    simp
  have hmem : ∀ c : Int × Int, c ∈ check_captures st x y player ↔
      ∃ d ∈ ([(1, 0), (-1, 0), (0, 1), (0, -1)] : List (Int × Int)),
        c = (x + d.1, y + d.2) ∧ SpecCaptureCond st.board x y player d := by
    intro c
    rw [heq]
    unfold specCaptureList
    rw [List.mem_filterMap]
    constructor
    · rintro ⟨d, hd, hfd⟩
      by_cases hs : SpecCaptureCond st.board x y player d
      · rw [if_pos hs] at hfd
        exact ⟨d, hd, (Option.some.injEq _ _).mp hfd |>.symm, hs⟩
      · rw [if_neg hs] at hfd
        cases hfd
    · rintro ⟨d, hd, rfl, hs⟩
      exact ⟨d, hd, by rw [if_pos hs]⟩
  refine ⟨heq, hmem, ?_, ?_⟩
  · rw [heq]
    unfold specCaptureList
    exact le_trans (List.length_filterMap_le _ _) (by simp)
  · intro hmem22
    rcases (hmem _).mp hmem22 with ⟨d, _, hcell, hs⟩
    exact hs.2.2.1 hcell.symm

/-- Witness for C2 at the canonical custody capture: player 1 lands at
(1,1) and the enemy at (1,2) is captured. -/
theorem check_captures_matches_spec_witness :
    (1 = 1 ∨ 1 = 2) ∧
    (check_captures exCap 1 1 1 = specCaptureList exCap.board 1 1 1 ∧
    (∀ c : Int × Int, c ∈ check_captures exCap 1 1 1 ↔
      ∃ d ∈ ([(1, 0), (-1, 0), (0, 1), (0, -1)] : List (Int × Int)),
        c = (1 + d.1, 1 + d.2) ∧ SpecCaptureCond exCap.board 1 1 1 d) ∧
    (check_captures exCap 1 1 1).length ≤ 4 ∧
    ((2 : Int), (2 : Int)) ∉ check_captures exCap 1 1 1) :=
  ⟨Or.inl rfl, check_captures_matches_spec exCap 1 1 1 (Or.inl rfl)⟩

/-- Counterexample to claim C1 as stated: in `exC1` the current player 1
is in the movement phase with both counts at least 2 and no valid moves,
yet `check_victory` declares the blocked player himself the winner
(player 1 holds more pieces), so the blocked player does not lose. -/
theorem check_victory_blocked_winner_counterexample :
    exC1.phase = Phase.movement ∧
    2 ≤ exC1.pieces_count1 ∧ 2 ≤ exC1.pieces_count2 ∧
    get_all_valid_moves exC1 exC1.current_player = [] ∧
    exC1.current_player = 1 ∧
    (check_victory exC1).2.1 = some 1 := by
  refine ⟨rfl, by decide, by decide, by decide, rfl, by decide⟩

/-- Claim C1 as amended: when the current player is blocked in the
movement phase with both counts at least 2, `check_victory` reports a
winner — the side holding more pieces, even when that side is the
blocked player; only on equal counts is the winner defined as the
opponent of the blocked player. -/
theorem check_victory_stalemate (st : GameState)
    (h_phase : st.phase = Phase.movement)
    (h1 : 2 ≤ st.pieces_count1) (h2 : 2 ≤ st.pieces_count2)
    (hblock : get_all_valid_moves st st.current_player = []) :
    (check_victory st).1 = true ∧
    (check_victory st).2.1 = some
      (if st.pieces_count2 < st.pieces_count1 then 1
       else if st.pieces_count1 < st.pieces_count2 then 2
       else GameState.get_opponent st.current_player) := by
  unfold check_victory
  rw [if_neg (by simp [h_phase])]
  rw [if_neg (by omega)]
  rw [if_neg (by omega)]
  simp only [hblock, List.length_nil, if_pos rfl]
  unfold GameState.get_opponent
  split_ifs with ha hb hc hd he hf <;> simp_all <;> omega

/-- Witness for the amended C1 at `exC1`: the blocked player 1 holds
more pieces and is declared winner. -/
theorem check_victory_stalemate_witness :
    exC1.phase = Phase.movement ∧
    2 ≤ exC1.pieces_count1 ∧ 2 ≤ exC1.pieces_count2 ∧
    get_all_valid_moves exC1 exC1.current_player = [] ∧
    ((check_victory exC1).1 = true ∧
     (check_victory exC1).2.1 = some
      (if exC1.pieces_count2 < exC1.pieces_count1 then 1
       else if exC1.pieces_count1 < exC1.pieces_count2 then 2
       else GameState.get_opponent exC1.current_player)) :=
  ⟨rfl, by decide, by decide, by decide,
    check_victory_stalemate exC1 rfl (by decide) (by decide) (by decide)⟩

/-- Claim C4: in the movement phase, when one player's piece count has
dropped below 2 while the other still has at least 2, `check_victory`
reports game-over with the other player as winner. -/
theorem check_victory_attrition (st : GameState) (p : Nat) (hp : p = 1 ∨ p = 2)
    (h_phase : st.phase = Phase.movement)
    (hlow : st.pieces_count p < 2)
    (hother : 2 ≤ st.pieces_count (GameState.get_opponent p)) :
    (check_victory st).1 = true ∧
    (check_victory st).2.1 = some (GameState.get_opponent p) := by
  rcases hp with rfl | rfl <;>
    simp only [GameState.pieces_count, GameState.get_opponent] at hlow hother ⊢ <;>
    norm_num at hlow hother ⊢ <;>
    unfold check_victory <;>
    rw [if_neg (by simp [h_phase])]
  · rw [if_pos (by omega)]
    exact ⟨rfl, rfl⟩
  · rw [if_neg (by omega), if_pos (by omega)]
    exact ⟨rfl, rfl⟩

/-- Witness for C4: player 1 reduced to one piece loses to player 2. -/
theorem check_victory_attrition_witness :
    (1 = 1 ∨ 1 = 2) ∧ exC4.phase = Phase.movement ∧
    exC4.pieces_count 1 < 2 ∧ 2 ≤ exC4.pieces_count (GameState.get_opponent 1) ∧
    ((check_victory exC4).1 = true ∧
     (check_victory exC4).2.1 = some (GameState.get_opponent 1)) :=
  ⟨Or.inl rfl, rfl, by decide, by decide,
    check_victory_attrition exC4 1 (Or.inl rfl) rfl (by decide) (by decide)⟩


theorem List.set_getElem_self' {α : Type _} (l : List α) (n : Nat) (h : n < l.length) :
    l.set n l[n] = l := by
  apply List.ext_getElem?
  intro m
  by_cases hm : m = n
  · subst hm; rw [List.getElem?_set_self h, List.getElem?_eq_getElem h]
  · rw [List.getElem?_set_ne (fun he => hm he.symm)]


theorem Board.row_length (b : Board) (hwf : b.WF) (y : Int) (hy : 0 ≤ y ∧ y < 5) :
    (b.cells.getD y.toNat []).length = 5 := by
  have hyn : y.toNat < b.cells.length := by rw [hwf.1]; omega
  rw [List.getD_eq_getElem?_getD, List.getElem?_eq_getElem hyn]
  exact hwf.2 _ (b.cells.getElem_mem hyn)

theorem Board.WF_set (b : Board) (hwf : b.WF) (x y : Int) (v : Nat)
    (hx : 0 ≤ x ∧ x < 5) (hy : 0 ≤ y ∧ y < 5) : (b.set x y v).WF := by
  constructor
  · simp [Board.set, hwf.1]
  · intro row hrow
    rcases List.mem_or_eq_of_mem_set hrow with h | h
    · exact hwf.2 _ h
    · subst h
      rw [List.length_set]
      exact b.row_length hwf y hy

theorem Board.get_set_self (b : Board) (hwf : b.WF) (x y : Int) (v : Nat)
    (hx : 0 ≤ x ∧ x < 5) (hy : 0 ≤ y ∧ y < 5) : (b.set x y v).get x y = v := by
  have hyn : y.toNat < b.cells.length := by rw [hwf.1]; omega
  have hxn : x.toNat < (b.cells.getD y.toNat []).length := by
    rw [b.row_length hwf y hy]; omega
  simp only [Board.get, Board.set, List.getD_eq_getElem?_getD] at *
  rw [List.getElem?_set_self hyn, Option.getD_some, List.getElem?_set_self hxn,
    Option.getD_some]

theorem Board.get_set_of_ne (b : Board) (hwf : b.WF) (x y x' y' : Int) (v : Nat)
    (hx : 0 ≤ x ∧ x < 5) (hy : 0 ≤ y ∧ y < 5)
    (hx' : 0 ≤ x' ∧ x' < 5) (hy' : 0 ≤ y' ∧ y' < 5)
    (hne : (x', y') ≠ (x, y)) : (b.set x y v).get x' y' = b.get x' y' := by
  have hyn : y.toNat < b.cells.length := by rw [hwf.1]; omega
  simp only [Board.get, Board.set, List.getD_eq_getElem?_getD] at *
  by_cases hyy : y' = y
  · subst hyy
    have hxx : x'.toNat ≠ x.toNat := by
      intro hc
      exact hne (Prod.ext (by omega) rfl)
    rw [List.getElem?_set_self hyn, Option.getD_some,
      List.getElem?_set_ne (fun h => hxx h.symm), List.getElem?_eq_getElem hyn,
      Option.getD_some]
  · have hyy' : y.toNat ≠ y'.toNat := by omega
    rw [List.getElem?_set_ne hyy']

theorem Board.set_eq_of_get_eq (b : Board) (hwf : b.WF) (x y : Int) (v : Nat)
    (hx : 0 ≤ x ∧ x < 5) (hy : 0 ≤ y ∧ y < 5) (hv : b.get x y = v) :
    b.set x y v = b := by
  have hyn : y.toNat < b.cells.length := by rw [hwf.1]; omega
  have hxn : x.toNat < (b.cells.getD y.toNat []).length := by
    rw [b.row_length hwf y hy]; omega
  simp only [Board.get, Board.set, List.getD_eq_getElem?_getD,
    List.getElem?_eq_getElem hyn, Option.getD_some] at *
  rw [← hv, List.getElem?_eq_getElem hxn, Option.getD_some,
    List.set_getElem_self' _ _ hxn, List.set_getElem_self' _ _ hyn]

theorem Board.set_set (b : Board) (hwf : b.WF) (x y : Int) (a c : Nat)
    (hx : 0 ≤ x ∧ x < 5) (hy : 0 ≤ y ∧ y < 5) :
    (b.set x y a).set x y c = b.set x y c := by
  have hyn : y.toNat < b.cells.length := by rw [hwf.1]; omega
  simp only [Board.set, List.getD_eq_getElem?_getD]
  rw [List.set_set, List.getElem?_set_self hyn, Option.getD_some, List.set_set]


theorem hasChainLoop_preserves (x y : Int) (player : Nat)
    (hx : 0 ≤ x ∧ x < 5) (hy : 0 ≤ y ∧ y < 5) :
    ∀ (st : GameState) (ms : List (Int × Int)),
      st.board.WF → st.board.get x y = player →
      (∀ m ∈ ms, (0 ≤ m.1 ∧ m.1 < 5) ∧ (0 ≤ m.2 ∧ m.2 < 5) ∧
        st.board.get m.1 m.2 = 0 ∧ m ≠ (x, y)) →
      (hasChainLoop x y player st ms).1 = st
  | st, [], _, _, _ => rfl
  | st, m :: rest, hwf, hget, hms => by
      obtain ⟨hmx, hmy, hm0, hmne⟩ := hms m (List.mem_cons_self _ _)
      have hwf1 : (st.board.set x y 0).WF := st.board.WF_set hwf x y 0 hx hy
      have key : (((st.board.set x y 0).set m.1 m.2 player).set m.1 m.2 0).set x y player
          = st.board := by
        rw [Board.set_set _ hwf1 m.1 m.2 player 0 hmx hmy]
        have hg : (st.board.set x y 0).get m.1 m.2 = 0 := by
          rw [Board.get_set_of_ne st.board hwf x y m.1 m.2 0 hx hy hmx hmy hmne]
          exact hm0
        rw [Board.set_eq_of_get_eq _ hwf1 m.1 m.2 0 hmx hmy hg]
        rw [Board.set_set st.board hwf x y 0 player hx hy]
        exact Board.set_eq_of_get_eq st.board hwf x y player hx hy hget
      simp only [hasChainLoop]
      have hst2 : ({ st with board :=
          (((st.board.set x y 0).set m.1 m.2 player).set m.1 m.2 0).set x y player }
          : GameState) = st := by
        rw [key]
      rw [hst2]
      split
      · rfl
      · exact hasChainLoop_preserves x y player hx hy st rest hwf hget
          (fun m' hm' => hms m' (List.mem_cons_of_mem _ hm'))

theorem has_capture_chain_frame (st : GameState) (x y : Int) (player : Nat)
    (hwf : st.board.WF) (hx : 0 ≤ x ∧ x < 5) (hy : 0 ≤ y ∧ y < 5)
    (hget : st.board.get x y = player) :
    (has_capture_chain st x y player).1 = st := by
  unfold has_capture_chain
  apply hasChainLoop_preserves x y player hx hy st _ hwf hget
  intro m hm
  rw [List.mem_filterMap] at hm
  obtain ⟨d, hd, hfd⟩ := hm
  by_cases hc : (st.board.is_valid_position (x + d.1) (y + d.2) &&
      st.board.is_empty (x + d.1) (y + d.2)) = true
  · rw [if_pos hc] at hfd
    obtain rfl := (Option.some.injEq _ _).mp hfd
    obtain ⟨hval, hemp⟩ := Bool.and_eq_true _ _ |>.mp hc
    obtain ⟨ha, hb, hc', hd'⟩ := (is_valid_position_eq_true st.board _ _).mp hval
    have hg0 : st.board.get (x + d.1) (y + d.2) = 0 := by
      simpa [Board.is_empty] using hemp
    refine ⟨⟨ha, hb⟩, ⟨hc', hd'⟩, hg0, ?_⟩
    simp only [moveDirs, List.mem_cons, List.not_mem_nil, or_false] at hd
    rcases hd with rfl | rfl | rfl | rfl <;>
      (intro hcon
       have h1 := congrArg Prod.fst hcon
       have h2 := congrArg Prod.snd hcon
       simp at h1 h2 <;> omega)
  · rw [if_neg (by simpa using hc)] at hfd
    cases hfd


/-- Claim C9: `has_capture_chain`, called on a cell (x, y) of the board
holding the player's piece, leaves the entire session state — in
particular the board — identical to its pre-call state on every return
path, including the early return on the first capturing neighbour; its
only effect is the boolean result. -/
theorem has_capture_chain_restores_board (st : GameState) (x y : Int) (player : Nat)
    (hwf : st.board.WF) (hx : 0 ≤ x ∧ x < 5) (hy : 0 ≤ y ∧ y < 5)
    (hget : st.board.get x y = player) :
    (has_capture_chain st x y player).1 = st :=
  has_capture_chain_frame st x y player hwf hx hy hget

/-- Witness for C9 at `exC9`, where the very first speculative neighbour
(1,2) yields a capture and the scan early-returns. -/
theorem has_capture_chain_restores_board_witness :
    exC9.board.WF ∧ (0 ≤ (1 : Int) ∧ (1 : Int) < 5) ∧ (0 ≤ (1 : Int) ∧ (1 : Int) < 5) ∧
    exC9.board.get 1 1 = 1 ∧ (has_capture_chain exC9 1 1 1).1 = exC9 :=
  ⟨by decide, by decide, by decide, by decide,
    has_capture_chain_restores_board exC9 1 1 1 (by decide) (by decide) (by decide)
      (by decide)⟩


theorem illegal_action_no_mutation (st : GameState) (tok : String) (p : Nat)
    (hres : resolve_player st tok = some p) :
    (∀ x y : Int, (can_place_piece st x y p).1 = false →
      service_place st tok x y = (st, Except.error (can_place_piece st x y p).2)) ∧
    (∀ fx fy tx ty : Int, (can_move_piece st fx fy tx ty p).1 = false →
      service_move st tok fx fy tx ty =
        (st, Except.error (can_move_piece st fx fy tx ty p).2)) := by
  constructor
  · intro x y h
    simp only [service_place, hres, service_place_core, h, Bool.not_false, if_true]
  · intro fx fy tx ty h
    simp only [service_move, hres, service_move_core, h, Bool.not_false, if_true]

theorem join_idempotent_for_bound_token (st : GameState) (tok : String) :
    (∀ ps, st.player1 = some ps → ps.token = tok →
      ∀ (new_token : String) (coin : Nat),
        service_join st (some tok) new_token coin =
          (st, Except.ok ⟨st.game_id, tok, 1, st.status⟩)) ∧
    (∀ ps, st.player2 = some ps → ps.token = tok →
      (∀ qs, st.player1 = some qs → qs.token ≠ tok) →
      ∀ (new_token : String) (coin : Nat),
        service_join st (some tok) new_token coin =
          (st, Except.ok ⟨st.game_id, tok, 2, st.status⟩)) := by
  constructor
  · intro ps hps htok new_token coin
    simp [service_join, hps, htok]
  · intro ps hps htok hq new_token coin
    have e1 : st.player1.any (fun q => q.token == tok) = false := by
      cases hp : st.player1 with
      | none => rfl
      | some q => simpa using hq q hp
    simp [service_join, hps, htok, e1]

theorem join_waiting_ignores_unknown_token (st : GameState) (tok new_token : String)
    (coin : Nat) (hw : st.status = GameStatus.waiting)
    (h1 : ∀ ps, st.player1 = some ps → ps.token ≠ tok)
    (h2 : ∀ ps, st.player2 = some ps → ps.token ≠ tok) :
    service_join st (some tok) new_token coin =
      ({ st with
          player2 := some ⟨2, new_token, true⟩
          status := GameStatus.playing
          current_player := coin },
       Except.ok ⟨st.game_id, new_token, 2, GameStatus.playing⟩) := by
  have e1 : st.player1.any (fun q => q.token == tok) = false := by
    cases hp : st.player1 with
    | none => rfl
    | some q => simpa using h1 q hp
  have e2 : st.player2.any (fun q => q.token == tok) = false := by
    cases hp : st.player2 with
    | none => rfl
    | some q => simpa using h2 q hp
  simp [service_join, e1, e2, hw]


/-- Witness for C6: on `baseState` (movement phase) a placement attempt is
rejected with the phase reason and a move from an empty origin with the
ownership reason; in both cases the returned session is `baseState`
itself. -/
theorem illegal_action_no_mutation_witness :
    resolve_player baseState "t1" = some 1 ∧
    (can_place_piece baseState 0 0 1).1 = false ∧
    (can_move_piece baseState 0 0 0 1 1).1 = false ∧
    service_place baseState "t1" 0 0 =
      (baseState, Except.error (can_place_piece baseState 0 0 1).2) ∧
    service_move baseState "t1" 0 0 0 1 =
      (baseState, Except.error (can_move_piece baseState 0 0 0 1 1).2) :=
  ⟨by decide, by decide, by decide,
    (illegal_action_no_mutation baseState "t1" 1 (by decide)).1 0 0 (by decide),
    (illegal_action_no_mutation baseState "t1" 1 (by decide)).2 0 0 0 1 (by decide)⟩

/-- Witness for C8: rejoining `baseState` with the already-bound token
"t1" returns slot 1's identity and leaves the session untouched, for an
arbitrary fresh token and coin. -/
theorem join_idempotent_for_bound_token_witness :
    baseState.player1 = some ⟨1, "t1", true⟩ ∧
    service_join baseState (some "t1") "fresh" 2 =
      (baseState, Except.ok ⟨baseState.game_id, "t1", 1, baseState.status⟩) :=
  ⟨rfl, (join_idempotent_for_bound_token baseState "t1").1 ⟨1, "t1", true⟩ rfl rfl "fresh" 2⟩

/-- Witness for C10: joining the WAITING session `exWait` with the
unknown token "zz" succeeds, seats the caller as player 2 with the fresh
token, and flips status to PLAYING. -/
theorem join_waiting_ignores_unknown_token_witness :
    exWait.status = GameStatus.waiting ∧
    service_join exWait (some "zz") "fresh2" 1 =
      ({ exWait with
          player2 := some ⟨2, "fresh2", true⟩
          status := GameStatus.playing
          current_player := 1 },
       Except.ok ⟨exWait.game_id, "fresh2", 2, GameStatus.playing⟩) :=
  ⟨rfl, join_waiting_ignores_unknown_token exWait "zz" "fresh2" 1 rfl
    (fun ps hps => by injection hps with h; subst h; decide)
    (fun ps hps => Option.noConfusion hps)⟩


theorem hasChainLoop_ex (x y : Int) (player : Nat) :
    ∀ (st : GameState) (ms : List (Int × Int)),
      ∃ b : Board, (hasChainLoop x y player st ms).1 = { st with board := b }
  | st, [] => ⟨st.board, rfl⟩
  | st, m :: rest => by
      simp only [hasChainLoop]
      split
      · exact ⟨_, rfl⟩
      · obtain ⟨b, hb⟩ := hasChainLoop_ex x y player
          { st with board :=
            (((st.board.set x y 0).set m.1 m.2 player).set m.1 m.2 0).set x y player } rest
        exact ⟨b, hb⟩

theorem apply_captures_ex :
    ∀ (caps : List (Int × Int)) (st : GameState),
      ∃ (b : Board) (c1 c2 : Int), apply_captures st caps =
        { st with board := b, pieces_count1 := c1, pieces_count2 := c2 }
  | [], st => ⟨st.board, st.pieces_count1, st.pieces_count2, rfl⟩
  | c :: rest, st => by
      have hstep : apply_captures st (c :: rest) =
          apply_captures
            (let owner := st.board.get c.1 c.2
             let st' := { st with board := st.board.set c.1 c.2 0 }
             if owner = 1 then { st' with pieces_count1 := st'.pieces_count1 - 1 }
             else if owner = 2 then { st' with pieces_count2 := st'.pieces_count2 - 1 }
             else st') rest := rfl
      have hform : ∃ (B : Board) (C1 C2 : Int),
          (let owner := st.board.get c.1 c.2
           let st' := { st with board := st.board.set c.1 c.2 0 }
           if owner = 1 then { st' with pieces_count1 := st'.pieces_count1 - 1 }
           else if owner = 2 then { st' with pieces_count2 := st'.pieces_count2 - 1 }
           else st') =
          { st with board := B, pieces_count1 := C1, pieces_count2 := C2 } := by
        by_cases h1 : st.board.get c.1 c.2 = 1
        · refine ⟨st.board.set c.1 c.2 0, st.pieces_count1 - 1, st.pieces_count2, ?_⟩
          simp only [h1, if_true]
        · by_cases h2 : st.board.get c.1 c.2 = 2
          · refine ⟨st.board.set c.1 c.2 0, st.pieces_count1, st.pieces_count2 - 1, ?_⟩
            simp only [h2]
            norm_num
          · refine ⟨st.board.set c.1 c.2 0, st.pieces_count1, st.pieces_count2, ?_⟩
            simp only [h1, h2, if_false]
      obtain ⟨B, C1, C2, hB⟩ := hform
      rw [hstep, hB]
      obtain ⟨b, c1, c2, hb⟩ := apply_captures_ex rest
        { st with board := B, pieces_count1 := C1, pieces_count2 := C2 }
      rw [hb]
      exact ⟨b, c1, c2, rfl⟩

theorem can_move_chain_pin (st : GameState) (c : Int × Int) (fx fy tx ty : Int) (p : Nat)
    (hchain : st.chain_capture_piece = some c)
    (hne : ¬(fx = c.1 ∧ fy = c.2))
    (hok : (can_move_piece { st with chain_capture_piece := none } fx fy tx ty p).1 = true) :
    can_move_piece st fx fy tx ty p =
      (false, "Debes continuar moviendo la pieza en (" ++ toString c.1 ++ ", " ++
        toString c.2 ++ ")") := by
  unfold can_move_piece at hok ⊢
  dsimp only at hok
  split_ifs at hok ⊢ <;> simp_all


theorem finish_if_winner_chain (st : GameState) (r : MoveResult) :
    (finish_if_winner st r).1.chain_capture_piece = st.chain_capture_piece := by
  simp only [finish_if_winner]
  split <;> rfl

theorem finish_if_winner_current (st : GameState) (r : MoveResult) :
    (finish_if_winner st r).1.current_player = st.current_player := by
  simp only [finish_if_winner]
  split <;> rfl

theorem finish_if_winner_extra (st : GameState) (r : MoveResult) :
    (finish_if_winner st r).2.extra_turn = r.extra_turn := by
  simp only [finish_if_winner]
  split <;> rfl

theorem finish_if_winner_phase (st : GameState) (r : MoveResult) :
    (finish_if_winner st r).1.phase = st.phase := by
  simp only [finish_if_winner]
  split <;> rfl

theorem chain_capture_extra_turn (st : GameState) (tok : String) (p : Nat)
    (fx fy tx ty : Int)
    (hres : resolve_player st tok = some p)
    (hlegal : (can_move_piece st fx fy tx ty p).1 = true)
    (hcaps : check_captures (move_piece st fx fy tx ty) tx ty p ≠ [])
    (hchain : (has_capture_chain (apply_captures (move_piece st fx fy tx ty)
        (check_captures (move_piece st fx fy tx ty) tx ty p)) tx ty p).2 = true) :
    (service_move st tok fx fy tx ty).1.chain_capture_piece = some (tx, ty) ∧
    (service_move st tok fx fy tx ty).1.current_player = st.current_player ∧
    (∃ res : MoveResult, (service_move st tok fx fy tx ty).2 = Except.ok res ∧
      res.extra_turn = true) ∧
    (∀ fx2 fy2 tx2 ty2 : Int, ¬(fx2 = tx ∧ fy2 = ty) →
      (can_move_piece { (service_move st tok fx fy tx ty).1 with
          chain_capture_piece := none } fx2 fy2 tx2 ty2 p).1 = true →
      can_move_piece (service_move st tok fx fy tx ty).1 fx2 fy2 tx2 ty2 p =
        (false, "Debes continuar moviendo la pieza en (" ++ toString tx ++ ", " ++
          toString ty ++ ")")) := by
  have hcur : (has_capture_chain (apply_captures (move_piece st fx fy tx ty)
      (check_captures (move_piece st fx fy tx ty) tx ty p)) tx ty p).1.current_player
      = st.current_player := by
    unfold has_capture_chain
    obtain ⟨b, hb⟩ := hasChainLoop_ex tx ty p
      (apply_captures (move_piece st fx fy tx ty)
        (check_captures (move_piece st fx fy tx ty) tx ty p)) _
    rw [hb]
    obtain ⟨b2, c1, c2, hb2⟩ := apply_captures_ex
      (check_captures (move_piece st fx fy tx ty) tx ty p) (move_piece st fx fy tx ty)
    rw [hb2]
    rfl
  have hstep : capture_turn_step (move_piece st fx fy tx ty) p tx ty
      (check_captures (move_piece st fx fy tx ty) tx ty p) =
      ({ (has_capture_chain (apply_captures (move_piece st fx fy tx ty)
          (check_captures (move_piece st fx fy tx ty) tx ty p)) tx ty p).1 with
          chain_capture_piece := some (tx, ty) }, true) := by
    unfold capture_turn_step
    rw [if_pos (by simp [List.length_pos, hcaps] : 0 <
      (check_captures (move_piece st fx fy tx ty) tx ty p).length)]
    rw [if_pos hchain]
  have hmain : (service_move st tok fx fy tx ty).1.chain_capture_piece = some (tx, ty) ∧
      (service_move st tok fx fy tx ty).1.current_player = st.current_player ∧
      (∃ res : MoveResult, (service_move st tok fx fy tx ty).2 = Except.ok res ∧
        res.extra_turn = true) := by
    simp only [service_move, hres]
    unfold service_move_core
    rw [if_neg (by simp [hlegal])]
    simp only [hstep]
    split
    · refine ⟨?_, ?_, ⟨_, rfl, ?_⟩⟩
      · rw [finish_if_winner_chain]
      · rw [finish_if_winner_current]
        exact hcur
      · rw [finish_if_winner_extra]
    · split
      · rename_i hgo hextra
        rw [finish_if_winner_extra] at hextra
        simp at hextra
      · refine ⟨?_, ?_, ⟨_, rfl, ?_⟩⟩
        · rw [finish_if_winner_chain]
        · rw [finish_if_winner_current]
          exact hcur
        · rw [finish_if_winner_extra]
  refine ⟨hmain.1, hmain.2.1, hmain.2.2, ?_⟩
  intro fx2 fy2 tx2 ty2 hne hok
  exact can_move_chain_pin _ (tx, ty) fx2 fy2 tx2 ty2 p hmain.1 hne hok


theorem chain_capture_extra_turn_witness :
    resolve_player exC3 "t1" = some 1 ∧
    (can_move_piece exC3 0 0 1 0 1).1 = true ∧
    check_captures (move_piece exC3 0 0 1 0) 1 0 1 ≠ [] ∧
    (has_capture_chain (apply_captures (move_piece exC3 0 0 1 0)
        (check_captures (move_piece exC3 0 0 1 0) 1 0 1)) 1 0 1).2 = true ∧
    ((service_move exC3 "t1" 0 0 1 0).1.chain_capture_piece = some (1, 0) ∧
     (service_move exC3 "t1" 0 0 1 0).1.current_player = exC3.current_player ∧
     (∃ res : MoveResult, (service_move exC3 "t1" 0 0 1 0).2 = Except.ok res ∧
       res.extra_turn = true) ∧
     (∀ fx2 fy2 tx2 ty2 : Int, ¬(fx2 = 1 ∧ fy2 = 0) →
       (can_move_piece { (service_move exC3 "t1" 0 0 1 0).1 with
           chain_capture_piece := none } fx2 fy2 tx2 ty2 1).1 = true →
       can_move_piece (service_move exC3 "t1" 0 0 1 0).1 fx2 fy2 tx2 ty2 1 =
         (false, "Debes continuar moviendo la pieza en (" ++ toString (1 : Int) ++ ", " ++
           toString (0 : Int) ++ ")"))) :=
  ⟨by decide, by decide, by decide, by decide,
    chain_capture_extra_turn exC3 "t1" 1 0 0 1 0 (by decide) (by decide) (by decide)
      (by decide)⟩


theorem has_capture_chain_ex (st : GameState) (x y : Int) (p : Nat) :
    ∃ b : Board, (has_capture_chain st x y p).1 = { st with board := b } := by
  unfold has_capture_chain
  exact hasChainLoop_ex x y p st _

theorem switch_turn_phase (st : GameState) : st.switch_turn.phase = st.phase := by
  simp only [GameState.switch_turn]
  split <;> rfl

theorem capture_turn_step_phase (st : GameState) (p : Nat) (tx ty : Int)
    (caps : List (Int × Int)) : (capture_turn_step st p tx ty caps).1.phase = st.phase := by
  obtain ⟨ba, c1, c2, hba⟩ := apply_captures_ex caps st
  obtain ⟨bh, hbh⟩ := has_capture_chain_ex
    { st with board := ba, pieces_count1 := c1, pieces_count2 := c2 } tx ty p
  simp only [capture_turn_step, hba, hbh]
  split_ifs <;> simp only [switch_turn_phase] <;> rfl

theorem service_move_core_phase (st : GameState) (p : Nat) (fx fy tx ty : Int) :
    (service_move_core st p fx fy tx ty).1.phase = st.phase := by
  simp only [service_move_core]
  split
  · rfl
  · split
    · rw [finish_if_winner_phase, capture_turn_step_phase]
      rfl
    · split
      · rw [finish_if_winner_phase, finish_if_winner_phase, capture_turn_step_phase]
        rfl
      · rw [finish_if_winner_phase, capture_turn_step_phase]
        rfl

theorem service_place_movement_identity (st : GameState) (tok : String) (x y : Int)
    (hphase : st.phase = Phase.movement) :
    (service_place st tok x y).1 = st := by
  unfold service_place
  cases hres : resolve_player st tok with
  | none => rfl
  | some p =>
      have hcp : (can_place_piece st x y p).1 = false := by
        unfold can_place_piece
        rw [if_pos (by simp [hphase])]
      simp only [service_place_core, hcp, Bool.not_false, if_true]

theorem leaveFinish_phase (st st' : GameState)
    (h : (leaveFinish st).1 = some st') : st'.phase = st.phase := by
  unfold leaveFinish at h
  by_cases hc : st.player1 = none ∧ st.player2 = none
  · rw [if_pos hc] at h
    exact Option.noConfusion h
  · rw [if_neg hc] at h
    dsimp only at h
    replace h := Option.some.inj h
    subst h
    split_ifs <;> rfl

theorem service_leave_phase (st : GameState) (tok : String) (st' : GameState)
    (h : (service_leave st tok).1 = some st') : st'.phase = st.phase := by
  unfold service_leave at h
  by_cases h1 : st.player1.any (fun p => p.token == tok) = true
  · rw [if_pos h1] at h
    exact leaveFinish_phase { st with player1 := none } st' h
  · rw [if_neg h1] at h
    by_cases h2 : st.player2.any (fun p => p.token == tok) = true
    · rw [if_pos h2] at h
      exact leaveFinish_phase { st with player2 := none } st' h
    · rw [if_neg h2] at h
      replace h := Option.some.inj h
      subst h
      rfl

theorem service_rematch_phase (st : GameState) (tok : String) (coin : Nat)
    (h : (service_rematch st tok coin).2 ≠ Except.ok true) :
    (service_rematch st tok coin).1.phase = st.phase := by
  unfold service_rematch at h ⊢
  by_cases hgo : (!st.game_over) = true
  · rw [if_pos hgo]
  · rw [if_neg hgo] at h ⊢
    cases hres : resolve_player st tok with
    | none => simp only [hres]
    | some p =>
        simp only [hres] at h ⊢
        by_cases hlen : (if p ∈ st.rematch_requests then st.rematch_requests
            else st.rematch_requests ++ [p]).length ≥ 2
        · rw [if_pos hlen] at h
          exact absurd rfl h
        · rw [if_neg hlen]

theorem service_join_phase (st : GameState) (tok0 : Option String) (nt : String)
    (coin : Nat) : (service_join st tok0 nt coin).1.phase = st.phase := by
  unfold service_join
  cases tok0 with
  | none =>
      cases hp2 : st.player2 <;> dsimp only <;> split_ifs <;> rfl
  | some tok =>
      cases hp2 : st.player2 <;> dsimp only <;> split_ifs <;> rfl


theorem switch_turn_total (st : GameState) :
    st.switch_turn.total_pieces_placed = st.total_pieces_placed := by
  simp only [GameState.switch_turn]
  split <;> rfl

theorem place_piece_completes (st : GameState) (x y : Int) (p : Nat)
    (htotal : st.total_pieces_placed = 23) :
    (place_piece st x y p).2 = true ∧
    (place_piece st x y p).1.phase = Phase.movement ∧
    (place_piece st x y p).1.chain_capture_piece = none := by
  simp only [place_piece]
  split_ifs with h1 h2 h3 <;>
    first
      | exact ⟨rfl, rfl, rfl⟩
      | (exfalso
         simp only [switch_turn_total] at *
         omega)

theorem can_place_movement (st : GameState) (x y : Int) (p : Nat)
    (hphase : st.phase = Phase.movement) :
    can_place_piece st x y p = (false, "No estás en la fase de posicionamiento") := by
  unfold can_place_piece
  rw [if_pos (by simp [hphase])]

theorem service_move_phase (st : GameState) (tok : String) (fx fy tx ty : Int) :
    (service_move st tok fx fy tx ty).1.phase = st.phase := by
  unfold service_move
  cases hres : resolve_player st tok with
  | none => rfl
  | some p => exact service_move_core_phase st p fx fy tx ty

/-- Claim C5 as amended: reaching the 24th placement flips the phase to
MOVEMENT, clears the chain pointer and signals the phase change; from a
MOVEMENT-phase session every placement is ineligible with the phase
reason, `place` leaves the session untouched, and `move`, `leave`, any
`join` and any rematch call that does not complete the two-sided
handshake keep the phase at MOVEMENT.  (A completed rematch resets the
phase to PLACEMENT — the claim's unqualified "for all subsequent
actions" fails there.) -/
theorem placement_phase_locks (st : GameState) :
    (st.total_pieces_placed = 23 →
      ∀ (x y : Int) (p : Nat),
        (place_piece st x y p).2 = true ∧
        (place_piece st x y p).1.phase = Phase.movement ∧
        (place_piece st x y p).1.chain_capture_piece = none) ∧
    (st.phase = Phase.movement →
      (∀ (x y : Int) (p : Nat),
        can_place_piece st x y p = (false, "No estás en la fase de posicionamiento")) ∧
      (∀ (tok : String) (x y : Int), (service_place st tok x y).1 = st) ∧
      (∀ (tok : String) (fx fy tx ty : Int),
        (service_move st tok fx fy tx ty).1.phase = Phase.movement) ∧
      (∀ (tok : String) (st' : GameState),
        (service_leave st tok).1 = some st' → st'.phase = Phase.movement) ∧
      (∀ (tok : String) (coin : Nat),
        (service_rematch st tok coin).2 ≠ Except.ok true →
        (service_rematch st tok coin).1.phase = Phase.movement) ∧
      (∀ (tok0 : Option String) (nt : String) (coin : Nat),
        (service_join st tok0 nt coin).1.phase = Phase.movement)) := by
  constructor
  · intro htotal x y p
    exact place_piece_completes st x y p htotal
  · intro hphase
    refine ⟨fun x y p => can_place_movement st x y p hphase,
      fun tok x y => service_place_movement_identity st tok x y hphase,
      fun tok fx fy tx ty => ?_, fun tok st' h => ?_, fun tok coin h => ?_,
      fun tok0 nt coin => ?_⟩
    · rw [service_move_phase, hphase]
    · rw [service_leave_phase st tok st' h, hphase]
    · rw [service_rematch_phase st tok coin h, hphase]
    · rw [service_join_phase, hphase]

/-- Counterexample to C5 as stated: `exC5` has completed its 24
placements (phase MOVEMENT), yet the subsequent rematch call by player 2
completes the handshake, resets the phase to PLACEMENT, and placement
becomes legal again. -/
theorem movement_phase_rematch_counterexample :
    exC5.total_pieces_placed = 24 ∧ exC5.phase = Phase.movement ∧
    (service_rematch exC5 "t2" 1).1.phase = Phase.placement ∧
    (can_place_piece (service_rematch exC5 "t2" 1).1 0 0 1).1 = true :=
  ⟨rfl, rfl, by decide, by decide⟩

/-- Witness for the amended C5: the 24th drop on `exC5b` flips the phase,
and on `baseState` (movement phase) all the locking conclusions hold. -/
theorem placement_phase_locks_witness :
    (exC5b.total_pieces_placed = 23 ∧
      ((place_piece exC5b 4 4 1).2 = true ∧
       (place_piece exC5b 4 4 1).1.phase = Phase.movement ∧
       (place_piece exC5b 4 4 1).1.chain_capture_piece = none)) ∧
    (baseState.phase = Phase.movement ∧
      ((∀ (x y : Int) (p : Nat), can_place_piece baseState x y p =
          (false, "No estás en la fase de posicionamiento")) ∧
       (∀ (tok : String) (x y : Int), (service_place baseState tok x y).1 = baseState) ∧
       (∀ (tok : String) (fx fy tx ty : Int),
         (service_move baseState tok fx fy tx ty).1.phase = Phase.movement) ∧
       (∀ (tok : String) (st' : GameState),
         (service_leave baseState tok).1 = some st' → st'.phase = Phase.movement) ∧
       (∀ (tok : String) (coin : Nat),
         (service_rematch baseState tok coin).2 ≠ Except.ok true →
         (service_rematch baseState tok coin).1.phase = Phase.movement) ∧
       (∀ (tok0 : Option String) (nt : String) (coin : Nat),
         (service_join baseState tok0 nt coin).1.phase = Phase.movement))) :=
  ⟨⟨rfl, (placement_phase_locks exC5b).1 rfl 4 4 1⟩,
   ⟨rfl, (placement_phase_locks baseState).2 rfl⟩⟩


theorem resolve_player_cases (st : GameState) (tok : String) (p : Nat)
    (h : resolve_player st tok = some p) : p = 1 ∨ p = 2 := by
  unfold resolve_player at h
  split_ifs at h <;> cases h <;> simp

theorem resolve_player_no_player2 (st : GameState) (tok : String) (p : Nat)
    (h : resolve_player st tok = some p) (h2 : st.player2 = none) : p = 1 := by
  unfold resolve_player at h
  rw [h2] at h
  split_ifs at h <;> simp_all

theorem can_move_true_facts (st : GameState) (fx fy tx ty : Int) (p : Nat)
    (h : (can_move_piece st fx fy tx ty p).1 = true) :
    st.phase = Phase.movement ∧ st.current_player = p ∧
    (0 ≤ fx ∧ fx < 5 ∧ 0 ≤ fy ∧ fy < 5) ∧ (0 ≤ tx ∧ tx < 5 ∧ 0 ≤ ty ∧ ty < 5) ∧
    st.board.get fx fy = p ∧ st.board.get tx ty = 0 ∧ ¬(fx = tx ∧ fy = ty) := by
  unfold can_move_piece at h
  split_ifs at h with h1 h2 h3 h4 h5 h6 h7 <;> try simp_all
  refine ⟨(is_valid_position_eq_true _ _ _).mp h3, (is_valid_position_eq_true _ _ _).mp h4,
    by simpa [Board.is_empty] using h6, ?_⟩
  rintro rfl rfl
  omega

theorem can_place_true_facts (st : GameState) (x y : Int) (p : Nat)
    (h : (can_place_piece st x y p).1 = true) :
    st.phase = Phase.placement ∧ st.current_player = p ∧
    0 < st.placement_remaining ∧
    (0 ≤ x ∧ x < 5 ∧ 0 ≤ y ∧ y < 5) ∧ st.board.get x y = 0 ∧ ¬(x = 2 ∧ y = 2) := by
  unfold can_place_piece at h
  split_ifs at h with h1 h2 h3 h4 h5 h6 <;> try simp_all
  refine ⟨(is_valid_position_eq_true _ _ _).mp h4, by simpa [Board.is_empty] using h5, ?_⟩
  intro hx2 hy2
  simp [Board.is_refuge, hx2, hy2] at h6

theorem check_captures_mem_facts (st : GameState) (x y : Int) (p : Nat)
    (hp : p = 1 ∨ p = 2) :
    ∀ c ∈ check_captures st x y p,
      (0 ≤ c.1 ∧ c.1 < 5 ∧ 0 ≤ c.2 ∧ c.2 < 5) ∧ c ≠ (x, y) := by
  intro c hc
  unfold check_captures captureDirs at hc
  rw [foldl_captureStep st.board x y p hp] at hc
  simp only [List.nil_append, List.mem_filterMap] at hc
  obtain ⟨d, hd, hfd⟩ := hc
  by_cases hs : SpecCaptureCond st.board x y p d
  · rw [if_pos hs] at hfd
    obtain rfl := (Option.some.injEq _ _).mp hfd
    refine ⟨hs.1, ?_⟩
    simp only [List.mem_cons, List.not_mem_nil, or_false] at hd
    rcases hd with rfl | rfl | rfl | rfl <;>
      (intro hcon
       have h1 := congrArg Prod.fst hcon
       have h2 := congrArg Prod.snd hcon
       simp at h1 h2 <;> omega)
  · rw [if_neg hs] at hfd
    cases hfd

theorem apply_captures_preserve :
    ∀ (caps : List (Int × Int)) (st : GameState) (x y : Int),
      st.board.WF → (0 ≤ x ∧ x < 5) → (0 ≤ y ∧ y < 5) →
      (∀ c ∈ caps, (0 ≤ c.1 ∧ c.1 < 5 ∧ 0 ≤ c.2 ∧ c.2 < 5) ∧ c ≠ (x, y)) →
      (apply_captures st caps).board.WF ∧
      (apply_captures st caps).board.get x y = st.board.get x y
  | [], st, x, y, hwf, hx, hy, hmem => ⟨hwf, rfl⟩
  | c :: rest, st, x, y, hwf, hx, hy, hmem => by
      obtain ⟨⟨hc1, hc2, hc3, hc4⟩, hcne⟩ := hmem c (List.mem_cons_self _ _)
      have hstep : apply_captures st (c :: rest) =
          apply_captures
            (let owner := st.board.get c.1 c.2
             let st' := { st with board := st.board.set c.1 c.2 0 }
             if owner = 1 then { st' with pieces_count1 := st'.pieces_count1 - 1 }
             else if owner = 2 then { st' with pieces_count2 := st'.pieces_count2 - 1 }
             else st') rest := rfl
      have hwf' : (st.board.set c.1 c.2 0).WF :=
        Board.WF_set st.board hwf c.1 c.2 0 ⟨hc1, hc2⟩ ⟨hc3, hc4⟩
      have hget' : (st.board.set c.1 c.2 0).get x y = st.board.get x y := by
        apply Board.get_set_of_ne st.board hwf c.1 c.2 x y 0 ⟨hc1, hc2⟩ ⟨hc3, hc4⟩ hx hy
        intro hcon
        apply hcne
        obtain ⟨hh1, hh2⟩ := Prod.mk.injEq x y c.1 c.2 ▸ hcon
        exact Prod.ext hh1.symm hh2.symm
      have hform : ∃ st'' : GameState, st''.board = st.board.set c.1 c.2 0 ∧
          (let owner := st.board.get c.1 c.2
           let st' := { st with board := st.board.set c.1 c.2 0 }
           if owner = 1 then { st' with pieces_count1 := st'.pieces_count1 - 1 }
           else if owner = 2 then { st' with pieces_count2 := st'.pieces_count2 - 1 }
           else st') = st'' := by
        by_cases h1 : st.board.get c.1 c.2 = 1
        · refine ⟨{ st with board := st.board.set c.1 c.2 0, pieces_count1 := st.pieces_count1 - 1 }, rfl, ?_⟩
          simp only [h1, if_true]
        · by_cases h2 : st.board.get c.1 c.2 = 2
          · refine ⟨{ st with board := st.board.set c.1 c.2 0, pieces_count2 := st.pieces_count2 - 1 }, rfl, ?_⟩
            simp only [h2]
            norm_num
          · refine ⟨{ st with board := st.board.set c.1 c.2 0 }, rfl, ?_⟩
            simp only [h1, h2, if_false]
      obtain ⟨st'', hb'', heq⟩ := hform
      rw [hstep, heq]
      have hrest := apply_captures_preserve rest st'' x y (hb'' ▸ hwf') hx hy
        (fun c' hc' => hmem c' (List.mem_cons_of_mem _ hc'))
      rw [hb''] at hrest
      exact ⟨hrest.1, (hrest.2).trans hget'⟩


theorem not_waiting_of_movement (st : GameState) (h : Inv st)
    (hphase : st.phase = Phase.movement) : st.status ≠ GameStatus.waiting := by
  intro hw
  have h2 := (h.2.2.2 hw).2.1
  rw [hphase] at h2
  exact Phase.noConfusion h2

theorem finish_if_winner_inv (st : GameState) (r : MoveResult) (h : Inv st) :
    Inv (finish_if_winner st r).1 := by
  simp only [finish_if_winner]
  split
  · exact ⟨h.1, h.2.1, h.2.2.1, fun hw => nomatch hw⟩
  · exact h

theorem inv_join_new (st : GameState) (nt : String) (coin : Nat) (h : Inv st)
    (hw : st.status = GameStatus.waiting) :
    Inv { st with
      player2 := some ⟨2, nt, true⟩
      status := GameStatus.playing
      current_player := coin } := by
  have hphase := (h.2.2.2 hw).2.1
  have hchain := h.2.1 hphase
  refine ⟨h.1, fun _ => hchain, fun c hc => ?_, fun hcon => nomatch hcon⟩
  simp [hchain] at hc

theorem inv_service_join (st : GameState) (tok0 : Option String) (nt : String)
    (coin : Nat) (h : Inv st) : Inv (service_join st tok0 nt coin).1 := by
  unfold service_join
  cases tok0 with
  | none =>
      dsimp only
      by_cases hw : st.status ≠ GameStatus.waiting
      · rw [if_pos hw]
        cases st.player2 <;> exact h
      · rw [if_neg hw]
        push_neg at hw
        exact inv_join_new st nt coin h hw
  | some tok =>
      dsimp only
      by_cases h1 : st.player1.any (fun p => p.token == tok) = true
      · rw [if_pos h1]
        exact h
      · rw [if_neg h1]
        by_cases h2 : st.player2.any (fun p => p.token == tok) = true
        · rw [if_pos h2]
          exact h
        · rw [if_neg h2]
          by_cases hw : st.status ≠ GameStatus.waiting
          · rw [if_pos hw]
            cases st.player2 <;> exact h
          · rw [if_neg hw]
            push_neg at hw
            exact inv_join_new st nt coin h hw

theorem leaveFinish_inv (st st' : GameState) (h : Inv st)
    (heq : (leaveFinish st).1 = some st') : Inv st' := by
  unfold leaveFinish at heq
  by_cases hc : st.player1 = none ∧ st.player2 = none
  · rw [if_pos hc] at heq
    exact Option.noConfusion heq
  · rw [if_neg hc] at heq
    dsimp only at heq
    replace heq := Option.some.inj heq
    subst heq
    split_ifs <;> exact ⟨h.1, h.2.1, h.2.2.1, fun hw => nomatch hw⟩

theorem inv_service_leave (st : GameState) (tok : String) (st' : GameState)
    (h : Inv st) (heq : (service_leave st tok).1 = some st') : Inv st' := by
  unfold service_leave at heq
  by_cases h1 : st.player1.any (fun p => p.token == tok) = true
  · rw [if_pos h1] at heq
    exact leaveFinish_inv { st with player1 := none } st'
      ⟨h.1, h.2.1, h.2.2.1, h.2.2.2⟩ heq
  · rw [if_neg h1] at heq
    by_cases h2 : st.player2.any (fun p => p.token == tok) = true
    · rw [if_pos h2] at heq
      refine leaveFinish_inv { st with player2 := none } st'
        ⟨h.1, h.2.1, h.2.2.1, fun hw => ?_⟩ heq
      exact ⟨rfl, ((h.2.2.2) hw).2⟩
    · rw [if_neg h2] at heq
      replace heq := Option.some.inj heq
      subst heq
      exact h

theorem inv_service_rematch (st : GameState) (tok : String) (coin : Nat)
    (h : Inv st) : Inv (service_rematch st tok coin).1 := by
  unfold service_rematch
  by_cases hgo : (!st.game_over) = true
  · rw [if_pos hgo]
    exact h
  · rw [if_neg hgo]
    cases hres : resolve_player st tok with
    | none => exact h
    | some p =>
        dsimp only
        by_cases hlen : (if p ∈ st.rematch_requests then st.rematch_requests
            else st.rematch_requests ++ [p]).length ≥ 2
        · rw [if_pos hlen]
          refine ⟨?_, fun _ => rfl, fun c hc => Option.noConfusion hc,
            fun hw => nomatch hw⟩
          show Board.init.WF
          decide
        · rw [if_neg hlen]
          exact ⟨h.1, h.2.1, h.2.2.1, h.2.2.2⟩


theorem switch_turn_fields (st : GameState) :
    st.switch_turn.board = st.board ∧ st.switch_turn.phase = st.phase ∧
    st.switch_turn.status = st.status ∧
    st.switch_turn.chain_capture_piece = st.chain_capture_piece := by
  simp only [GameState.switch_turn]
  split <;> exact ⟨rfl, rfl, rfl, rfl⟩

theorem inv_switch_movement (Y : GameState) (hWF : Y.board.WF)
    (hch : Y.chain_capture_piece = none)
    (hnw : Y.status ≠ GameStatus.waiting) : Inv Y.switch_turn := by
  obtain ⟨hb, hp2, hs, hc⟩ := switch_turn_fields Y
  refine ⟨?_, fun hpl => ?_, fun c hcc => ?_, fun hw => ?_⟩
  · rw [hb]
    exact hWF
  · rw [hc, hch]
  · rw [hc, hch] at hcc
    exact Option.noConfusion hcc
  · rw [hs] at hw
    exact absurd hw hnw

theorem inv_chain_set (Y : GameState) (tx ty : Int) (hWF : Y.board.WF)
    (hph : Y.phase = Phase.movement) (hnw : Y.status ≠ GameStatus.waiting)
    (hbtx : 0 ≤ tx ∧ tx < 5) (hbty : 0 ≤ ty ∧ ty < 5)
    (hget : Y.board.get tx ty = Y.current_player) :
    Inv { Y with chain_capture_piece := some (tx, ty) } := by
  refine ⟨hWF, fun hpl => ?_, fun c hcc => ?_, fun hw => absurd hw hnw⟩
  · rw [hph] at hpl
    exact Phase.noConfusion hpl
  · replace hcc := Option.some.inj hcc
    cases hcc
    exact ⟨⟨hbtx.1, hbtx.2, hbty.1, hbty.2⟩, hget⟩

theorem inv_service_move (st : GameState) (tok : String) (fx fy tx ty : Int)
    (h : Inv st) : Inv (service_move st tok fx fy tx ty).1 := by
  unfold service_move
  cases hres : resolve_player st tok with
  | none => exact h
  | some p =>
      have hp := resolve_player_cases st tok p hres
      unfold service_move_core
      dsimp only
      by_cases hcm : (can_move_piece st fx fy tx ty p).1 = true
      · rw [if_neg (by simp [hcm])]
        obtain ⟨hphase, hcur, ⟨hfx1, hfx2, hfy1, hfy2⟩, ⟨htx1, htx2, hty1, hty2⟩,
          hgf, hgt, hne⟩ := can_move_true_facts st fx fy tx ty p hcm
        have hnw := not_waiting_of_movement st h hphase
        have hWF0 : (st.board.set fx fy 0).WF :=
          Board.WF_set st.board h.1 fx fy 0 ⟨hfx1, hfx2⟩ ⟨hfy1, hfy2⟩
        have hWFM : (move_piece st fx fy tx ty).board.WF := by
          show ((st.board.set fx fy 0).set tx ty (st.board.get fx fy)).WF
          exact Board.WF_set _ hWF0 tx ty _ ⟨htx1, htx2⟩ ⟨hty1, hty2⟩
        have hgetM : (move_piece st fx fy tx ty).board.get tx ty = p := by
          show ((st.board.set fx fy 0).set tx ty (st.board.get fx fy)).get tx ty = p
          rw [Board.get_set_self _ hWF0 tx ty _ ⟨htx1, htx2⟩ ⟨hty1, hty2⟩]
          exact hgf
        have hcapmem := check_captures_mem_facts (move_piece st fx fy tx ty) tx ty p hp
        have hX : Inv (capture_turn_step (move_piece st fx fy tx ty) p tx ty
            (check_captures (move_piece st fx fy tx ty) tx ty p)).1 := by
          unfold capture_turn_step
          by_cases hlen :
              (check_captures (move_piece st fx fy tx ty) tx ty p).length > 0
          · rw [if_pos hlen]
            obtain ⟨hWFC, hgetC⟩ := apply_captures_preserve
              (check_captures (move_piece st fx fy tx ty) tx ty p)
              (move_piece st fx fy tx ty) tx ty hWFM ⟨htx1, htx2⟩ ⟨hty1, hty2⟩ hcapmem
            have hrest : (has_capture_chain
                (apply_captures (move_piece st fx fy tx ty)
                  (check_captures (move_piece st fx fy tx ty) tx ty p)) tx ty p).1 =
                apply_captures (move_piece st fx fy tx ty)
                  (check_captures (move_piece st fx fy tx ty) tx ty p) :=
              has_capture_chain_frame _ tx ty p hWFC ⟨htx1, htx2⟩ ⟨hty1, hty2⟩
                (by rw [hgetC]; exact hgetM)
            by_cases hch : (has_capture_chain
                (apply_captures (move_piece st fx fy tx ty)
                  (check_captures (move_piece st fx fy tx ty) tx ty p)) tx ty p).2 = true
            · rw [if_pos hch]
              dsimp only
              rw [hrest]
              apply inv_chain_set _ tx ty hWFC ?_ ?_ ⟨htx1, htx2⟩ ⟨hty1, hty2⟩ ?_
              · obtain ⟨bC, c1C, c2C, hC⟩ := apply_captures_ex
                  (check_captures (move_piece st fx fy tx ty) tx ty p)
                  (move_piece st fx fy tx ty)
                rw [hC]
                exact hphase
              · obtain ⟨bC, c1C, c2C, hC⟩ := apply_captures_ex
                  (check_captures (move_piece st fx fy tx ty) tx ty p)
                  (move_piece st fx fy tx ty)
                rw [hC]
                exact hnw
              · rw [hgetC, hgetM]
                obtain ⟨bC, c1C, c2C, hC⟩ := apply_captures_ex
                  (check_captures (move_piece st fx fy tx ty) tx ty p)
                  (move_piece st fx fy tx ty)
                rw [hC]
                exact hcur.symm
            · rw [if_neg hch]
              dsimp only
              rw [hrest]
              apply inv_switch_movement _ ?_ rfl ?_
              · exact hWFC
              · obtain ⟨bC, c1C, c2C, hC⟩ := apply_captures_ex
                  (check_captures (move_piece st fx fy tx ty) tx ty p)
                  (move_piece st fx fy tx ty)
                rw [hC]
                exact hnw
          · rw [if_neg hlen]
            dsimp only
            exact inv_switch_movement _ hWFM rfl hnw
        split
        · exact finish_if_winner_inv _ _ hX
        · split
          · exact finish_if_winner_inv _ _ (finish_if_winner_inv _ _ hX)
          · exact finish_if_winner_inv _ _ hX
      · have hc' : (can_move_piece st fx fy tx ty p).1 = false := by
          cases hb : (can_move_piece st fx fy tx ty p).1
          · rfl
          · exact absurd hb hcm
        rw [if_pos (by rw [hc']; rfl)]
        exact h


theorem check_victory_not_movement (st : GameState) (h : st.phase ≠ Phase.movement) :
    check_victory st = (false, none, "") := by
  unfold check_victory
  rw [if_pos h]

theorem place_piece_phase_unchanged (st : GameState) (x y : Int) (p : Nat)
    (h2 : (place_piece st x y p).2 = false) :
    (place_piece st x y p).1.phase = st.phase := by
  simp only [place_piece] at h2 ⊢
  dsimp only at h2 ⊢
  by_cases hr : st.placement_remaining - 1 = 0
  · rw [if_pos hr] at h2 ⊢
    rw [switch_turn_total] at h2 ⊢
    dsimp only at h2 ⊢
    by_cases h24 : st.total_pieces_placed + 1 ≥ 24
    · rw [if_pos h24] at h2
      exact absurd h2 (by simp)
    · rw [if_neg h24]
      exact switch_turn_phase _
  · rw [if_neg hr] at h2 ⊢
    dsimp only at h2 ⊢
    by_cases h24 : st.total_pieces_placed + 1 ≥ 24
    · rw [if_pos h24] at h2
      exact absurd h2 (by simp)
    · rw [if_neg h24]

theorem service_place_core_state (st : GameState) (p : Nat) (x y : Int)
    (hleg : (can_place_piece st x y p).1 = true) :
    (service_place_core st p x y).1 = (place_piece st x y p).1 := by
  unfold service_place_core
  rw [if_neg (by simp [hleg])]
  dsimp only
  by_cases hpc : (place_piece st x y p).2 = true
  · rw [if_neg (by simp [hpc])]
  · have hpcf : (place_piece st x y p).2 = false := by
      cases hb : (place_piece st x y p).2
      · rfl
      · exact absurd hb hpc
    rw [if_pos (by simp [hpcf])]
    have hphase := (can_place_true_facts st x y p hleg).1
    have hv : check_victory (place_piece st x y p).1 = (false, none, "") := by
      apply check_victory_not_movement
      rw [place_piece_phase_unchanged st x y p hpcf, hphase]
      simp
    simp only [hv]
    rw [if_neg (by simp)]

theorem switch_turn_eq_of_placement (Y : GameState) (hph : Y.phase = Phase.placement) :
    Y.switch_turn = { Y with
      current_player := GameState.get_opponent Y.current_player
      placement_remaining := 2 } := by
  simp only [GameState.switch_turn]
  rw [if_pos (by exact hph)]

theorem inv_place_piece (st : GameState) (x y : Int) (p : Nat) (h : Inv st)
    (hleg : (can_place_piece st x y p).1 = true)
    (hw1 : st.status = GameStatus.waiting → p = 1) :
    Inv (place_piece st x y p).1 := by
  obtain ⟨hphase, hcur, hrem, ⟨hx1, hx2, hy1, hy2⟩, hempty, href⟩ :=
    can_place_true_facts st x y p hleg
  have hchain := h.2.1 hphase
  have hWF' : (st.board.set x y p).WF :=
    Board.WF_set _ h.1 _ _ _ ⟨hx1, hx2⟩ ⟨hy1, hy2⟩
  simp only [place_piece]
  dsimp only
  by_cases hr0 : st.placement_remaining - 1 = 0
  · rw [if_pos hr0]
    rw [switch_turn_eq_of_placement _ (by exact hphase)]
    dsimp only
    by_cases h24 : st.total_pieces_placed + 1 ≥ 24
    · rw [if_pos h24]
      dsimp only
      refine ⟨hWF', ?_, ?_, ?_⟩ <;> dsimp only
      · intro hpl
        exact absurd hpl (by simp)
      · intro c hcc
        exact Option.noConfusion hcc
      · intro hw
        exfalso
        have htot := (h.2.2.2 hw).2.2.1
        omega
    · rw [if_neg h24]
      dsimp only
      refine ⟨hWF', ?_, ?_, ?_⟩ <;> dsimp only
      · intro hpl
        exact hchain
      · intro c hcc
        exact absurd (hchain ▸ hcc) (by simp)
      · intro hw
        obtain ⟨hp2, hplc, htot, hbud⟩ := h.2.2.2 hw
        have hp1 := hw1 hw
        obtain ⟨htoteq, hbr⟩ := hbud (by rw [hcur, hp1])
        refine ⟨hp2, hplc, by omega, fun hc1 => ?_⟩
        exfalso
        rw [hcur, hp1] at hc1
        simp [GameState.get_opponent] at hc1
  · rw [if_neg hr0]
    dsimp only
    by_cases h24 : st.total_pieces_placed + 1 ≥ 24
    · rw [if_pos h24]
      dsimp only
      refine ⟨hWF', ?_, ?_, ?_⟩ <;> dsimp only
      · intro hpl
        exact absurd hpl (by simp)
      · intro c hcc
        exact Option.noConfusion hcc
      · intro hw
        exfalso
        have htot := (h.2.2.2 hw).2.2.1
        omega
    · rw [if_neg h24]
      dsimp only
      refine ⟨hWF', ?_, ?_, ?_⟩ <;> dsimp only
      · intro hpl
        exact hchain
      · intro c hcc
        exact absurd (hchain ▸ hcc) (by simp)
      · intro hw
        obtain ⟨hp2, hplc, htot, hbud⟩ := h.2.2.2 hw
        have hp1 := hw1 hw
        obtain ⟨htoteq, hbr⟩ := hbud (by rw [hcur, hp1])
        refine ⟨hp2, hplc, by omega, fun hc1 => ⟨by push_cast; omega, by omega⟩⟩

theorem inv_service_place (st : GameState) (tok : String) (x y : Int)
    (h : Inv st) : Inv (service_place st tok x y).1 := by
  unfold service_place
  cases hres : resolve_player st tok with
  | none => exact h
  | some p =>
      dsimp only
      by_cases hleg : (can_place_piece st x y p).1 = true
      · rw [service_place_core_state st p x y hleg]
        apply inv_place_piece st x y p h hleg
        intro hw
        exact resolve_player_no_player2 st tok p hres (h.2.2.2 hw).1
      · have hc' : (can_place_piece st x y p).1 = false := by
          cases hb : (can_place_piece st x y p).1
          · rfl
          · exact absurd hb hleg
        unfold service_place_core
        rw [if_pos (by rw [hc']; rfl)]
        exact h


/-- Claim C7: in any session satisfying the inductive invariant `Inv`
(which holds for every reachable session and whose first interesting
clause is the claim's property), a set chain pointer references a cell
holding the current player's piece, and every service operation — place,
move (including capture application and the chain lookahead), leave,
rematch and join — preserves `Inv`. -/
theorem chain_pointer_invariant (st : GameState) (hInv : Inv st) :
    (∀ c : Int × Int, st.chain_capture_piece = some c →
      st.board.get c.1 c.2 = st.current_player) ∧
    (∀ (tok : String) (x y : Int), Inv (service_place st tok x y).1) ∧
    (∀ (tok : String) (fx fy tx ty : Int), Inv (service_move st tok fx fy tx ty).1) ∧
    (∀ (tok : String) (st' : GameState), (service_leave st tok).1 = some st' → Inv st') ∧
    (∀ (tok : String) (coin : Nat), Inv (service_rematch st tok coin).1) ∧
    (∀ (tok0 : Option String) (nt : String) (coin : Nat),
      Inv (service_join st tok0 nt coin).1) :=
  ⟨fun c hc => (hInv.2.2.1 c hc).2,
   fun tok x y => inv_service_place st tok x y hInv,
   fun tok fx fy tx ty => inv_service_move st tok fx fy tx ty hInv,
   fun tok st' heq => inv_service_leave st tok st' hInv heq,
   fun tok coin => inv_service_rematch st tok coin hInv,
   fun tok0 nt coin => inv_service_join st tok0 nt coin hInv⟩

/-- Witness for C7 at `exC1`, whose chain pointer is set to (0,0) and
held by the current player. -/
theorem chain_pointer_invariant_witness :
    Inv exC1 ∧
    ((∀ c : Int × Int, exC1.chain_capture_piece = some c →
        exC1.board.get c.1 c.2 = exC1.current_player) ∧
     (∀ (tok : String) (x y : Int), Inv (service_place exC1 tok x y).1) ∧
     (∀ (tok : String) (fx fy tx ty : Int),
        Inv (service_move exC1 tok fx fy tx ty).1) ∧
     (∀ (tok : String) (st' : GameState),
        (service_leave exC1 tok).1 = some st' → Inv st') ∧
     (∀ (tok : String) (coin : Nat), Inv (service_rematch exC1 tok coin).1) ∧
     (∀ (tok0 : Option String) (nt : String) (coin : Nat),
        Inv (service_join exC1 tok0 nt coin).1)) :=
  have hInv : Inv exC1 :=
    ⟨by decide, fun hpl => absurd hpl (by decide),
     fun c hc => by
       cases Option.some.inj hc
       exact ⟨by decide, by decide⟩,
     fun hw => absurd hw (by decide)⟩
  ⟨hInv, chain_pointer_invariant exC1 hInv⟩

end Seega
